import Mathlib

/-!
Verification of the excel-sort backend's core (extractor + matcher),
shallowly embedded from `src/excel-sort/backend/app.py`.

Strings are Lean `String`s; Python's `str.strip()` is modelled by `strip`
(drop whitespace from both ends of the character list).  Missing spreadsheet
cells (`pd.notna` false) are `none : Option String`.  The mutable
`available_requirements` pool of `ExcelSorter.sort_requirements` is threaded
explicitly through a recursive loop; Python `set`s become `Finset String`.
-/

namespace ExcelSort

/-- Characters removed by `str.strip()` (model: ASCII whitespace). -/
def stripChars (l : List Char) : List Char :=
  ((l.dropWhile Char.isWhitespace).reverse.dropWhile Char.isWhitespace).reverse

/-- Model of Python `str.strip()`: remove leading and trailing whitespace. -/
def strip (s : String) : String := ⟨stripChars s.data⟩

/-- Match-status string for a matched row (`'✅已匹配'` in app.py line 153). -/
def MATCHED : String := "✅已匹配"

/-- Match-status string for an unmatched row (`'⚠️未匹配'` in app.py line 168). -/
def UNMATCHED : String := "⚠️未匹配"

/-- One row of `matched_results` built in `ExcelSorter.sort_requirements`
(app.py lines 150-170): the dict with keys `module_value`,
`matched_requirement`, `match_status`, `match_method`. -/
structure MatchRecord where
  module_value : String
  matched_requirement : String
  match_status : String
  match_method : String
  deriving DecidableEq, Repr

/-- `ExcelSorter.find_exact_match` (app.py lines 102-115): scan
`requirements_list` from index 0; return the first index whose stripped text
equals the stripped module value, together with the stripped requirement.
`none` models the `(None, None, 'no_match')` return. -/
def find_exact_match (module_value : String) : List String → Option (Nat × String)
  | [] => none
  | r :: rs =>
    if strip module_value = strip r then some (0, strip r)
    else (find_exact_match module_value rs).map (fun p => (p.1 + 1, p.2))

/-- The loop state produced by the `for module_value in self.modules` loop of
`ExcelSorter.sort_requirements` (app.py lines 140-173): the accumulated
records, unmatched modules, matched requirements, and the remaining
`available_requirements` pool. -/
structure LoopOut where
  records : List MatchRecord
  unmatched_modules : List String
  matched_list : List String
  pool : List String
  deriving Repr

/-- The module loop of `ExcelSorter.sort_requirements` (app.py lines 140-173):
for each module value, strip it, look it up in the available pool; on a match
append a MATCHED record, record the matched requirement and `pop` it from the
pool; otherwise append an UNMATCHED record with empty matched text and record
the unmatched module. -/
def sortLoop (pool : List String) : List String → LoopOut
  | [] => ⟨[], [], [], pool⟩
  | m :: ms =>
    let cleaned_module := strip m
    match find_exact_match cleaned_module pool with
    | some (i, matched_requirement) =>
      let rest := sortLoop (pool.eraseIdx i) ms
      ⟨⟨cleaned_module, matched_requirement, MATCHED, "精确匹配"⟩ :: rest.records,
        rest.unmatched_modules,
        matched_requirement :: rest.matched_list,
        rest.pool⟩
    | none =>
      let rest := sortLoop pool ms
      ⟨⟨cleaned_module, "", UNMATCHED, "无"⟩ :: rest.records,
        cleaned_module :: rest.unmatched_modules,
        rest.matched_list,
        rest.pool⟩

/-- Result of `ExcelSorter.sort_requirements` (app.py lines 130-200):
`matched_results`, `unmatched_modules`, `matched_requirements_list`, the
set-difference `unmatched_requirements = set(requirements) - set(matched)`
(app.py lines 176-178, an unordered Python set difference, hence a `Finset`),
and `unmatched_items` (one entry per unmatched module, app.py lines 190-196). -/
structure SortResult where
  matched_results : List MatchRecord
  unmatched_modules : List String
  matched_requirements_list : List String
  unmatched_requirements : Finset String
  unmatched_items : List (String × String)

/-- `ExcelSorter.sort_requirements` (app.py lines 130-200), taking
`self.modules` and `self.requirements` as arguments. -/
def sort_requirements (modules requirements : List String) : SortResult :=
  let out := sortLoop requirements modules
  { matched_results := out.records
    unmatched_modules := out.unmatched_modules
    matched_requirements_list := out.matched_list
    unmatched_requirements := requirements.toFinset \ out.matched_list.toFinset
    unmatched_items :=
      out.unmatched_modules.map (fun m => (m, "在需求名称列中未找到完全相同的文本")) }

/-- The cell filter shared by both column loops of
`ExcelSorter.extract_modules_and_requirements` (app.py lines 73 and 81):
`pd.notna(val) and str(val).strip() and str(val).strip() != 'nan'`,
collecting the stripped values in row order. -/
def filteredColumn : List (Option String) → List String
  | [] => []
  | none :: rest => filteredColumn rest
  | some s :: rest =>
    if strip s ≠ "" ∧ strip s ≠ "nan" then strip s :: filteredColumn rest
    else filteredColumn rest

/-- Column-A loop of `ExcelSorter.extract_modules_and_requirements`
(app.py lines 70-74): filter, strip, keep duplicates, keep row order. -/
def extract_modules (colA : List (Option String)) : List String :=
  filteredColumn colA

/-- Column-D loop of `ExcelSorter.extract_modules_and_requirements`
(app.py lines 77-86): same filter, but a `requirements_set` of already-seen
stripped values suppresses every occurrence after the first. -/
def extractReqLoop (seen : Finset String) : List (Option String) → List String
  | [] => []
  | none :: rest => extractReqLoop seen rest
  | some s :: rest =>
    if strip s ≠ "" ∧ strip s ≠ "nan" then
      if strip s ∈ seen then extractReqLoop seen rest
      else strip s :: extractReqLoop (insert (strip s) seen) rest
    else extractReqLoop seen rest

/-- `requirements` as extracted from column D (app.py lines 77-86). -/
def extract_requirements (colD : List (Option String)) : List String :=
  extractReqLoop ∅ colD

/-- Reference definition following the spec's words for §4.1/C6: deduplicate a
list by exact equality, keeping each distinct value once, at the position of
its first occurrence. -/
def dedupFirstAux (seen : List String) : List String → List String
  | [] => []
  | x :: xs =>
    if x ∈ seen then dedupFirstAux seen xs
    else x :: dedupFirstAux (x :: seen) xs

/-- Reference definition (spec's words, §4.1/C6): first-occurrence dedup. -/
def dedupFirst (l : List String) : List String := dedupFirstAux [] l

/-- The three user-facing validation failures of the extraction path
(app.py lines 339-348): fewer than 4 columns, no usable column-A values,
no usable column-D values. -/
inductive SortError where
  | SchemaError
  | EmptyModulesError
  | EmptyRequirementsError
  deriving DecidableEq, Repr

/-- `ExcelSorter.extract_modules_and_requirements` (app.py lines 65-96):
the column loops run only when enough columns exist
(`len(df.columns) > 0`, `len(df.columns) > 3`). -/
def extract_modules_and_requirements (numCols : Nat)
    (colA colD : List (Option String)) : List String × List String :=
  ((if numCols > 0 then extract_modules colA else []),
   (if numCols > 3 then extract_requirements colD else []))

/-- The validation pipeline of the `sort_excel` route (app.py lines 339-348):
reject tables with fewer than 4 columns, then extract, then reject empty
module or requirement lists; on success hand the two sequences to the
matcher. -/
def sort_excel_validate (numCols : Nat) (colA colD : List (Option String)) :
    Except SortError (List String × List String) :=
  if numCols < 4 then .error .SchemaError
  else
    let mr := extract_modules_and_requirements numCols colA colD
    if mr.1.isEmpty then .error .EmptyModulesError
    else if mr.2.isEmpty then .error .EmptyRequirementsError
    else .ok mr

/-- The summary side channel's `matchedRequirements` field (app.py line 368):
`total_requirements - len(sorter.unmatched_items)`, a Python `int`
subtraction, hence `Int`. -/
def matchedRequirementsSummary (modules requirements : List String) : Int :=
  (requirements.length : Int) -
    ((sort_requirements modules requirements).unmatched_items.length : Int)

/-! ### Properties of `strip` -/

theorem head?_dropWhile_false {p : Char → Bool} : ∀ {l : List Char} {c : Char},
    (l.dropWhile p).head? = some c → p c = false := by
  intro l
  induction l with
  | nil => intro c h; simp [List.dropWhile] at h
  | cons a l ih =>
    intro c h
    rw [List.dropWhile_cons] at h
    split at h
    · exact ih h
    · simp only [List.head?_cons, Option.some.injEq] at h
      subst h
      rename_i hna
      exact Bool.eq_false_iff.mpr hna

theorem dropWhile_eq_self_of_head? {p : Char → Bool} {l : List Char}
    (h : ∀ c, l.head? = some c → p c = false) : l.dropWhile p = l := by
  cases l with
  | nil => rfl
  | cons a l => rw [List.dropWhile_cons, if_neg]; simp [h a rfl]

theorem getLast?_dropWhile {p : Char → Bool} : ∀ {l : List Char} {c : Char},
    l.getLast? = some c → p c = false → (l.dropWhile p).getLast? = some c := by
  intro l
  induction l with
  | nil => intro c h _; simp at h
  | cons a l ih =>
    intro c h hc
    rw [List.dropWhile_cons]
    split
    · cases l with
      | nil => simp at h; subst h; simp_all
      | cons b l' => rw [List.getLast?_cons_cons] at h; exact ih h hc
    · exact h

theorem stripChars_eq_self {l : List Char}
    (h1 : ∀ c, l.head? = some c → Char.isWhitespace c = false)
    (h2 : ∀ c, l.getLast? = some c → Char.isWhitespace c = false) :
    stripChars l = l := by
  have e1 : l.dropWhile Char.isWhitespace = l := dropWhile_eq_self_of_head? h1
  have e2 : l.reverse.dropWhile Char.isWhitespace = l.reverse :=
    dropWhile_eq_self_of_head? (fun c hc => h2 c (by rwa [List.head?_reverse] at hc))
  unfold stripChars
  rw [e1, e2, List.reverse_reverse]

theorem stripChars_head? {l : List Char} {c : Char}
    (h : (stripChars l).head? = some c) : Char.isWhitespace c = false := by
  unfold stripChars at h
  rw [List.head?_reverse] at h
  cases hA : l.dropWhile Char.isWhitespace with
  | nil => rw [hA] at h; simp at h
  | cons a A' =>
    have hpa : Char.isWhitespace a = false :=
      head?_dropWhile_false (l := l) (by rw [hA]; rfl)
    have hl : (a :: A').reverse.getLast? = some a := by
      rw [← List.head?_reverse, List.reverse_reverse]; rfl
    have hres := getLast?_dropWhile hl hpa
    rw [hA, hres] at h
    obtain rfl := Option.some.inj h
    exact hpa

theorem stripChars_getLast? {l : List Char} {c : Char}
    (h : (stripChars l).getLast? = some c) : Char.isWhitespace c = false := by
  unfold stripChars at h
  rw [← List.head?_reverse, List.reverse_reverse] at h
  exact head?_dropWhile_false h

/-- `stripChars` is idempotent. -/
theorem stripChars_idem (l : List Char) : stripChars (stripChars l) = stripChars l :=
  stripChars_eq_self (fun _ h => stripChars_head? h) (fun _ h => stripChars_getLast? h)

/-- Stripping is idempotent, like Python's `str.strip()`. -/
theorem strip_idem (s : String) : strip (strip s) = strip s :=
  congrArg String.mk (stripChars_idem s.data)

/-! ### Properties of `find_exact_match` -/

/-- A successful `find_exact_match` returns an in-range pool index together
with the stripped text at that index, which equals the stripped module. -/
theorem find_exact_match_some {m : String} : ∀ {l : List String} {i : Nat} {v : String},
    find_exact_match m l = some (i, v) →
      ∃ h : i < l.length, v = strip (l.get ⟨i, h⟩) ∧ strip m = v := by
  intro l
  induction l with
  | nil => intro i v h; simp [find_exact_match] at h
  | cons r rs ih =>
    intro i v h
    rw [find_exact_match] at h
    split at h
    · simp only [Option.some.injEq, Prod.mk.injEq] at h
      obtain ⟨rfl, rfl⟩ := h
      exact ⟨Nat.succ_pos _, rfl, by assumption⟩
    · simp only [Option.map_eq_some'] at h
      obtain ⟨⟨j, w⟩, hj, hjv⟩ := h
      obtain ⟨rfl, rfl⟩ := Prod.mk.injEq .. ▸ hjv
      obtain ⟨hlt, hv, hm⟩ := ih hj
      exact ⟨Nat.succ_lt_succ hlt, hv, hm⟩

/-- `find_exact_match` fails exactly when no pool entry strips to the same
text as the module value. -/
theorem find_exact_match_none {m : String} : ∀ {l : List String},
    find_exact_match m l = none ↔ ∀ r ∈ l, strip m ≠ strip r := by
  intro l
  induction l with
  | nil => simp [find_exact_match]
  | cons r rs ih =>
    rw [find_exact_match]
    split
    · simp_all
    · simp_all [Option.map_eq_none']

/-- Removing the element at index `i` and putting it back in front is a
permutation of the original pool. -/
theorem get_cons_eraseIdx_perm (l : List String) (i : Nat) (h : i < l.length) :
    (l.get ⟨i, h⟩ :: l.eraseIdx i).Perm l := by
  have h1 : l.Perm (l[i] :: l.erase l[i]) := List.perm_cons_erase (List.getElem_mem h)
  have h2 := List.erase_getElem h
  exact (h2.cons l[i]).symm.trans h1.symm

/-! ### Properties of the matcher loop -/

/-- The records carry the stripped module values, one per module, in order. -/
theorem sortLoop_records_map : ∀ (ms pool : List String),
    ((sortLoop pool ms).records.map MatchRecord.module_value) = ms.map strip := by
  intro ms
  induction ms with
  | nil => intro pool; rfl
  | cons m ms ih =>
    intro pool
    cases hfm : find_exact_match (strip m) pool with
    | none => simp [sortLoop, hfm, ih]
    | some p =>
      obtain ⟨i, v⟩ := p
      simp [sortLoop, hfm, ih]

/-- One record per module occurrence. -/
theorem sortLoop_records_length (ms pool : List String) :
    (sortLoop pool ms).records.length = ms.length := by
  have h := congrArg List.length (sortLoop_records_map ms pool)
  simpa using h

/-- Pool-consumption invariant: when the initial pool is stripped, the matched
requirements together with the remaining pool are a permutation of the
initial pool. -/
theorem sortLoop_perm : ∀ (ms pool : List String), (∀ r ∈ pool, strip r = r) →
    ((sortLoop pool ms).matched_list ++ (sortLoop pool ms).pool).Perm pool := by
  intro ms
  induction ms with
  | nil => intro pool _; simp [sortLoop]
  | cons m ms ih =>
    intro pool htrim
    cases hfm : find_exact_match (strip m) pool with
    | none =>
      simpa [sortLoop, hfm] using ih pool htrim
    | some p =>
      obtain ⟨i, v⟩ := p
      obtain ⟨hlt, hv, hmv⟩ := find_exact_match_some hfm
      have hveq : v = pool.get ⟨i, hlt⟩ := by
        rw [hv, htrim _ (pool.get_mem _ _)]
      have hperm := get_cons_eraseIdx_perm pool i hlt
      have htrim2 : ∀ r ∈ pool.eraseIdx i, strip r = r := by
        intro r hr
        exact htrim r (hperm.mem_iff.mp (List.mem_cons_of_mem _ hr))
      have hrec := ih (pool.eraseIdx i) htrim2
      subst hveq
      simp only [sortLoop, hfm]
      exact (hrec.cons _).trans hperm

/-- The matched-requirement texts of the MATCHED records are exactly the
`matched_requirements_list`, in order. -/
theorem sortLoop_matched_map : ∀ (ms pool : List String),
    (((sortLoop pool ms).records.filter
        (fun rec => rec.match_status == MATCHED)).map MatchRecord.matched_requirement) =
    (sortLoop pool ms).matched_list := by
  intro ms
  induction ms with
  | nil => intro pool; rfl
  | cons m ms ih =>
    intro pool
    cases hfm : find_exact_match (strip m) pool with
    | none =>
      have hne : (UNMATCHED == MATCHED) = false := by decide
      simp [sortLoop, hfm, List.filter_cons, hne, ih]
    | some p =>
      obtain ⟨i, w⟩ := p
      simp [sortLoop, hfm, List.filter_cons, ih]

/-- Counting MATCHED records with a given matched text is counting that text
in `matched_requirements_list`. -/
theorem sortLoop_countP (v : String) : ∀ (ms pool : List String),
    (sortLoop pool ms).records.countP
      (fun rec => rec.match_status == MATCHED && rec.matched_requirement == v) =
    (sortLoop pool ms).matched_list.count v := by
  intro ms
  induction ms with
  | nil => intro pool; rfl
  | cons m ms ih =>
    intro pool
    cases hfm : find_exact_match (strip m) pool with
    | none =>
      have hne : (UNMATCHED == MATCHED) = false := by decide
      simp [sortLoop, hfm, List.countP_cons, hne, ih]
    | some p =>
      obtain ⟨i, w⟩ := p
      simp [sortLoop, hfm, List.countP_cons, List.count_cons, ih]

/-- The number of MATCHED records equals the length of
`matched_requirements_list`. -/
theorem sortLoop_matched_length (ms pool : List String) :
    (sortLoop pool ms).records.countP (fun rec => rec.match_status == MATCHED) =
    (sortLoop pool ms).matched_list.length := by
  have h := congrArg List.length (sortLoop_matched_map ms pool)
  simpa [List.countP_eq_length_filter] using h

/-- Every matched requirement came from the initial (stripped) pool. -/
theorem sortLoop_matched_subset (ms reqs : List String)
    (htrim : ∀ r ∈ reqs, strip r = r) :
    ∀ x ∈ (sortLoop reqs ms).matched_list, x ∈ reqs := by
  intro x hx
  exact (sortLoop_perm ms reqs htrim).mem_iff.mp (List.mem_append.mpr (Or.inl hx))

/-! ### Properties of the extractor -/

/-- The seen-set loop of the column-D extraction computes a first-occurrence
dedup of the filtered column, for any agreeing seen-set/seen-list pair. -/
theorem extractReqLoop_eq_dedupFirstAux :
    ∀ (col : List (Option String)) (S : Finset String) (L : List String),
      (∀ x, x ∈ S ↔ x ∈ L) →
      extractReqLoop S col = dedupFirstAux L (filteredColumn col) := by
  intro col
  induction col with
  | nil => intro S L _; rfl
  | cons c rest ih =>
    intro S L hSL
    cases c with
    | none => simpa [extractReqLoop, filteredColumn] using ih S L hSL
    | some s =>
      by_cases hc : strip s ≠ "" ∧ strip s ≠ "nan"
      · by_cases hmem : strip s ∈ S
        · have hmemL : strip s ∈ L := (hSL _).mp hmem
          simp only [extractReqLoop, filteredColumn, if_pos hc, dedupFirstAux,
            if_pos hmem, if_pos hmemL]
          exact ih S L hSL
        · have hmemL : strip s ∉ L := fun h => hmem ((hSL _).mpr h)
          simp only [extractReqLoop, filteredColumn, if_pos hc, dedupFirstAux,
            if_neg hmem, if_neg hmemL]
          refine congrArg (strip s :: ·) (ih _ _ ?_)
          intro x
          simp [Finset.mem_insert, List.mem_cons, hSL x]
      · simp only [extractReqLoop, filteredColumn, if_neg hc]
        exact ih S L hSL

/-! ### Claim theorems -/

/-- C1: in every run of the matcher on a trimmed, deduplicated requirements
sequence, each requirement value is the matched text of at most one MATCHED
record: a requirement is removed from the available pool when matched and
never reconsidered. -/
theorem matcher_at_most_one_consumption (modules requirements : List String)
    (htrim : ∀ r ∈ requirements, strip r = r) (hnodup : requirements.Nodup)
    (v : String) :
    ((sort_requirements modules requirements).matched_results.countP
      (fun rec => rec.match_status == MATCHED && rec.matched_requirement == v)) ≤ 1 := by
  have hperm := sortLoop_perm modules requirements htrim
  have hnd : ((sortLoop requirements modules).matched_list ++
      (sortLoop requirements modules).pool).Nodup := hperm.nodup_iff.mpr hnodup
  have hmlnd := hnd.of_append_left
  have hcount := sortLoop_countP v modules requirements
  simp only [sort_requirements]
  rw [hcount]
  exact List.nodup_iff_count_le_one.mp hmlnd v

theorem matcher_at_most_one_consumption_witness :
    ((sort_requirements ["A", "A"] ["A"]).matched_results.countP
      (fun rec => rec.match_status == MATCHED && rec.matched_requirement == "A")) ≤ 1 :=
  matcher_at_most_one_consumption ["A", "A"] ["A"] (by decide) (by decide) "A"

/-- C2: with modules `["A", "A"]` and requirements `["A"]`, the matcher
produces a MATCHED record for the first occurrence and an UNMATCHED record
with empty matched text for the second: the single pool entry is consumed
by the first occurrence. -/
theorem matcher_duplicate_module_example :
    (sort_requirements ["A", "A"] ["A"]).matched_results =
      [⟨"A", "A", MATCHED, "精确匹配"⟩, ⟨"A", "", UNMATCHED, "无"⟩] := by decide

/-- C3: a module value matches some entry of the pool exactly when some pool
entry strips to the same text: matching is stripped, case-sensitive string
equality, with no other normalization and no substring or similarity logic. -/
theorem find_exact_match_exactness (m : String) (P : List String) :
    (∃ p, find_exact_match m P = some p) ↔ ∃ r ∈ P, strip m = strip r := by
  constructor
  · rintro ⟨⟨i, v⟩, hp⟩
    obtain ⟨hlt, hv, hm⟩ := find_exact_match_some hp
    exact ⟨P.get ⟨i, hlt⟩, P.get_mem _ _, by rw [hm, hv]⟩
  · intro hex
    cases hp : find_exact_match m P with
    | some p => exact ⟨p, rfl⟩
    | none =>
      obtain ⟨r, hr, hsr⟩ := hex
      exact absurd hsr (find_exact_match_none.mp hp r hr)

theorem find_exact_match_exactness_witness :
    ∃ r ∈ (["A"] : List String), strip "A" = strip r :=
  (find_exact_match_exactness "A" ["A"]).mp ⟨(0, "A"), by decide⟩

/-- C4: the leftover (unclaimed) requirements united with the matched
requirement values of the MATCHED records give back the original
deduplicated requirements set, and the two parts are disjoint. -/
theorem matcher_leftover_completeness (modules requirements : List String)
    (htrim : ∀ r ∈ requirements, strip r = r) :
    ((sort_requirements modules requirements).unmatched_requirements ∪
        (((sort_requirements modules requirements).matched_results.filter
            (fun rec => rec.match_status == MATCHED)).map
          MatchRecord.matched_requirement).toFinset =
      requirements.toFinset) ∧
    Disjoint (sort_requirements modules requirements).unmatched_requirements
      ((((sort_requirements modules requirements).matched_results.filter
          (fun rec => rec.match_status == MATCHED)).map
        MatchRecord.matched_requirement).toFinset) := by
  have hmap := sortLoop_matched_map modules requirements
  have hsub : (sortLoop requirements modules).matched_list.toFinset ⊆
      requirements.toFinset := by
    intro x hx
    rw [List.mem_toFinset] at hx ⊢
    exact sortLoop_matched_subset modules requirements htrim x hx
  simp only [sort_requirements, hmap]
  exact ⟨Finset.sdiff_union_of_subset hsub, Finset.sdiff_disjoint⟩

theorem matcher_leftover_completeness_witness :
    ((sort_requirements ["A"] ["A", "B"]).unmatched_requirements ∪
        (((sort_requirements ["A"] ["A", "B"]).matched_results.filter
            (fun rec => rec.match_status == MATCHED)).map
          MatchRecord.matched_requirement).toFinset =
      (["A", "B"] : List String).toFinset) ∧
    Disjoint (sort_requirements ["A"] ["A", "B"]).unmatched_requirements
      ((((sort_requirements ["A"] ["A", "B"]).matched_results.filter
          (fun rec => rec.match_status == MATCHED)).map
        MatchRecord.matched_requirement).toFinset) :=
  matcher_leftover_completeness ["A"] ["A", "B"] (by decide)

/-- C5: the matcher produces exactly one record per module occurrence, in
original module order, regardless of match outcomes. -/
theorem matcher_record_per_module (modules requirements : List String) :
    (sort_requirements modules requirements).matched_results.length = modules.length ∧
    (sort_requirements modules requirements).matched_results.map
        MatchRecord.module_value = modules.map strip := by
  simp only [sort_requirements]
  exact ⟨sortLoop_records_length modules requirements,
    sortLoop_records_map modules requirements⟩

/-- C6: column-D extraction deduplicates by exact stripped-text equality while
preserving first-appearance order: after the presence/trim/"nan" filter the
result is the first-occurrence dedup of the filtered values; in particular
raw `["X", "X", "Y"]` extracts to `["X", "Y"]`. -/
theorem extractor_dedup_first_order (colD : List (Option String)) :
    extract_requirements colD = dedupFirst (filteredColumn colD) ∧
    extract_requirements [some "X", some "X", some "Y"] = ["X", "Y"] :=
  ⟨extractReqLoop_eq_dedupFirstAux colD ∅ [] (by simp), by decide⟩

/-- C7: the extraction/validation path fails exactly when the table has fewer
than 4 columns (SchemaError), the filtered modules are empty
(EmptyModulesError), or the filtered requirements are empty
(EmptyRequirementsError); the kinds are mutually distinguishable and on
success the matcher receives the nonempty extracted sequences. -/
theorem extraction_validation_errors (numCols : Nat) (colA colD : List (Option String)) :
    (sort_excel_validate numCols colA colD = .error .SchemaError ↔ numCols < 4) ∧
    (sort_excel_validate numCols colA colD = .error .EmptyModulesError ↔
      4 ≤ numCols ∧ extract_modules colA = []) ∧
    (sort_excel_validate numCols colA colD = .error .EmptyRequirementsError ↔
      4 ≤ numCols ∧ extract_modules colA ≠ [] ∧ extract_requirements colD = []) ∧
    ((∃ e, sort_excel_validate numCols colA colD = .error e) ↔
      (numCols < 4 ∨ extract_modules colA = [] ∨ extract_requirements colD = [])) ∧
    (∀ ms rs, sort_excel_validate numCols colA colD = .ok (ms, rs) →
      4 ≤ numCols ∧ ms = extract_modules colA ∧ rs = extract_requirements colD ∧
      ms ≠ [] ∧ rs ≠ []) := by
  unfold sort_excel_validate extract_modules_and_requirements
  by_cases h4 : numCols < 4
  · have hn4 : ¬ 4 ≤ numCols := by omega
    simp [h4, hn4]
  · have h0 : numCols > 0 := by omega
    have h3 : numCols > 3 := by omega
    have hge : 4 ≤ numCols := by omega
    by_cases hm : extract_modules colA = []
    · simp [h4, h0, h3, hge, hm, List.isEmpty_iff]
    · by_cases hr : extract_requirements colD = []
      · simp [h4, h0, h3, hge, hm, hr, List.isEmpty_iff]
      · simp [h4, h0, h3, hge, hm, hr, List.isEmpty_iff]

theorem extraction_validation_errors_witness :
    sort_excel_validate 3 [some "A"] [some "B"] = .error .SchemaError :=
  (extraction_validation_errors 3 [some "A"] [some "B"]).1.mpr (by omega)

/-- C8: the matcher's records output is deterministic: two runs on identical
modules and requirements sequences produce identical records sequences. -/
theorem matcher_deterministic (m1 r1 m2 r2 : List String)
    (hm : m1 = m2) (hr : r1 = r2) :
    (sort_requirements m1 r1).matched_results =
      (sort_requirements m2 r2).matched_results := by
  subst hm
  subst hr
  rfl

theorem matcher_deterministic_witness :
    (sort_requirements ["A"] ["B"]).matched_results =
      (sort_requirements ["A"] ["B"]).matched_results :=
  matcher_deterministic ["A"] ["B"] ["A"] ["B"] rfl rfl

/-- C9: the summary's `matchedRequirements` is the deduplicated requirement
count minus the number of unmatched modules, not the count of MATCHED
records; it is negative whenever unmatched modules outnumber the
requirements, and differs from the MATCHED-record count exactly when the
unmatched-module count differs from the leftover-requirement count. -/
theorem summary_matched_requirements_formula (modules requirements : List String) :
    (matchedRequirementsSummary modules requirements =
      (requirements.length : Int) -
        ((sort_requirements modules requirements).unmatched_modules.length : Int)) ∧
    (requirements.length <
        (sort_requirements modules requirements).unmatched_modules.length →
      matchedRequirementsSummary modules requirements < 0) ∧
    ((∀ r ∈ requirements, strip r = r) → requirements.Nodup →
      (matchedRequirementsSummary modules requirements ≠
          (((sort_requirements modules requirements).matched_results.countP
            (fun rec => rec.match_status == MATCHED) : Nat) : Int) ↔
        (sort_requirements modules requirements).unmatched_modules.length ≠
          (sort_requirements modules requirements).unmatched_requirements.card)) := by
  have hitems : (sort_requirements modules requirements).unmatched_items.length =
      (sort_requirements modules requirements).unmatched_modules.length := by
    simp [sort_requirements]
  have h1 : matchedRequirementsSummary modules requirements =
      (requirements.length : Int) -
        ((sort_requirements modules requirements).unmatched_modules.length : Int) := by
    rw [matchedRequirementsSummary, hitems]
  refine ⟨h1, ?_, ?_⟩
  · intro hlt
    rw [h1]
    omega
  · intro htrim hnodup
    have hperm := sortLoop_perm modules requirements htrim
    have hlen : (sortLoop requirements modules).matched_list.length +
        (sortLoop requirements modules).pool.length = requirements.length := by
      have := hperm.length_eq
      simpa using this
    have hnd : ((sortLoop requirements modules).matched_list ++
        (sortLoop requirements modules).pool).Nodup := hperm.nodup_iff.mpr hnodup
    have hmlnd := hnd.of_append_left
    have hsub : (sortLoop requirements modules).matched_list.toFinset ⊆
        requirements.toFinset := by
      intro x hx
      rw [List.mem_toFinset] at hx ⊢
      exact sortLoop_matched_subset modules requirements htrim x hx
    have hcard : (sort_requirements modules requirements).unmatched_requirements.card =
        requirements.length - (sortLoop requirements modules).matched_list.length := by
      simp only [sort_requirements]
      rw [Finset.card_sdiff hsub, List.toFinset_card_of_nodup hnodup,
        List.toFinset_card_of_nodup hmlnd]
    have hcount : (sort_requirements modules requirements).matched_results.countP
        (fun rec => rec.match_status == MATCHED) =
        (sortLoop requirements modules).matched_list.length := by
      simp only [sort_requirements]
      exact sortLoop_matched_length modules requirements
    rw [h1, hcount, hcard]
    omega

theorem summary_matched_requirements_formula_witness :
    matchedRequirementsSummary ["B", "C"] ["A"] < 0 ∧
    (matchedRequirementsSummary ["B", "C"] ["A"] ≠
        (((sort_requirements ["B", "C"] ["A"]).matched_results.countP
          (fun rec => rec.match_status == MATCHED) : Nat) : Int) ↔
      (sort_requirements ["B", "C"] ["A"]).unmatched_modules.length ≠
        (sort_requirements ["B", "C"] ["A"]).unmatched_requirements.card) :=
  ⟨(summary_matched_requirements_formula ["B", "C"] ["A"]).2.1 (by decide),
    (summary_matched_requirements_formula ["B", "C"] ["A"]).2.2 (by decide) (by decide)⟩

/-- Every MATCHED record stores as matched requirement the very text it stores
as module value (helper induction over the loop). -/
theorem sortLoop_matched_fields : ∀ (ms pool : List String) (rec : MatchRecord),
    rec ∈ (sortLoop pool ms).records → rec.match_status = MATCHED →
    rec.matched_requirement = rec.module_value := by
  intro ms
  induction ms with
  | nil => intro pool rec h _; simp [sortLoop] at h
  | cons m ms ih =>
    intro pool rec hmem hstat
    cases hfm : find_exact_match (strip m) pool with
    | none =>
      simp only [sortLoop, hfm, List.mem_cons] at hmem
      rcases hmem with rfl | hmem
      · have hne : UNMATCHED ≠ MATCHED := by decide
        exact absurd hstat hne
      · exact ih pool rec hmem hstat
    | some p =>
      obtain ⟨i, v⟩ := p
      obtain ⟨hlt, hv, hm⟩ := find_exact_match_some hfm
      simp only [sortLoop, hfm, List.mem_cons] at hmem
      rcases hmem with rfl | hmem
      · show v = strip m
        rw [← hm, strip_idem]
      · exact ih (pool.eraseIdx i) rec hmem hstat

/-- C10: in every MATCHED record produced by the matcher, the stored matched
requirement text equals the stored module text of that record. -/
theorem matched_record_fields_equal (modules requirements : List String)
    (rec : MatchRecord)
    (hmem : rec ∈ (sort_requirements modules requirements).matched_results)
    (hstat : rec.match_status = MATCHED) :
    rec.matched_requirement = rec.module_value := by
  simp only [sort_requirements] at hmem
  exact sortLoop_matched_fields modules requirements rec hmem hstat

theorem matched_record_fields_equal_witness :
    (⟨"A", "A", MATCHED, "精确匹配"⟩ : MatchRecord).matched_requirement =
      (⟨"A", "A", MATCHED, "精确匹配"⟩ : MatchRecord).module_value :=
  matched_record_fields_equal ["A"] ["A"] _ (by decide) (by decide)

end ExcelSort
